import Mathlib

/-!
Shallow embedding of `src/stock_app.py` (a single-file price/flow backtest
app) and proofs about its merge step (`get_data`), its backtest engine
(`run_backtest`) and its module-level summary metrics.

Numeric cells of derived pandas columns are modelled as `Option ℚ`, with
`none` playing the role of NaN: arithmetic propagates `none`, comparisons
against `none` are `false`, and `cumprod` (default `skipna=True`) leaves
`none` at undefined positions while the running product skips them.
-/

namespace StockApp

/-- A cell of a derived pandas column; `none` models NaN. -/
abbrev Cell : Type := Option ℚ

/-- `data['Close'].rolling(window=w).mean()` at row `t`: the simple mean of
`closes[t+1-w .. t]`.  With pandas' default `min_periods = window` the value
is NaN (`none`) for the first `w - 1` rows, and there is no value past the
end of the column.  (pandas rejects `window = 0`, so only `1 ≤ w` is
meaningful.) -/
def movAvg (closes : List ℚ) (w t : ℕ) : Cell :=
  if w ≤ t + 1 ∧ t < closes.length then
    some ((((List.range w).map (fun i => closes.getD (t + 1 - w + i) 0)).sum) / (w : ℚ))
  else none

/-- `data['Close'].pct_change()` at row `t`: NaN at row 0, otherwise
`close[t] / close[t-1] - 1`. -/
def dailyReturn (closes : List ℚ) : ℕ → Cell
  | 0 => none
  | t + 1 =>
    match closes[t + 1]?, closes[t]? with
    | some c, some p => some (c / p - 1)
    | _, _ => none

/-- `condition_tech = data['Close'] > data['MA']` at row `t`; an elementwise
pandas comparison with NaN is `False`. -/
def condTech (closes : List ℚ) (w t : ℕ) : Bool :=
  match closes[t]?, movAvg closes w t with
  | some c, some m => decide (m < c)
  | _, _ => false

/-- `condition_chip = data['Foreign_Investor'] > 0` at row `t`. -/
def condChip (fi : List ℚ) (t : ℕ) : Bool :=
  match fi[t]? with
  | some v => decide (0 < v)
  | none => false

/-- `data['Signal'] = (condition_tech & condition_chip).astype(int)` at row `t`. -/
def signal (closes fi : List ℚ) (w t : ℕ) : ℕ :=
  if condTech closes w t && condChip fi t then 1 else 0

/-- `data['Signal'].shift(1)` at row `t`: NaN at row 0, else the previous
row's signal. -/
def signalShift (closes fi : List ℚ) (w : ℕ) : ℕ → Option ℕ
  | 0 => none
  | t + 1 => some (signal closes fi w t)

/-- `data['Strategy_Return'] = data['Signal'].shift(1) * data['Daily_Return']`
at row `t`; NaN propagates through the product. -/
def stratReturn (closes fi : List ℚ) (w t : ℕ) : Cell :=
  match signalShift closes fi w t, dailyReturn closes t with
  | some s, some r => some ((s : ℚ) * r)
  | _, _ => none

/-- Product of the defined entries of `f` over rows `0..t`; an undefined
(NaN) entry contributes factor 1 (pandas `cumprod` skips it). -/
def prodD (f : ℕ → Cell) : ℕ → ℚ
  | 0 => (f 0).getD 1
  | t + 1 => prodD f t * (f (t + 1)).getD 1

/-- pandas `Series.cumprod()` (default `skipna=True`) at row `t`: NaN where
the entry itself is NaN, otherwise the product of the defined entries so
far. -/
def cumprodSkip (f : ℕ → Cell) (t : ℕ) : Cell :=
  match f t with
  | none => none
  | some _ => some (prodD f t)

/-- `data['Cum_Market'] = (1 + data['Daily_Return']).cumprod()` at row `t`. -/
def cumMarket (closes : List ℚ) (t : ℕ) : Cell :=
  cumprodSkip (fun i => (dailyReturn closes i).map (fun r => 1 + r)) t

/-- `data['Cum_Strategy'] = (1 + data['Strategy_Return']).cumprod()` at row `t`. -/
def cumStrategy (closes fi : List ℚ) (w t : ℕ) : Cell :=
  cumprodSkip (fun i => (stratReturn closes fi w i).map (fun r => 1 + r)) t

/-- `trade_days = res['Signal'].sum()`: the signal column is 0/1, so its sum
counts the rows whose same-day signal is 1. -/
def tradeDays (closes fi : List ℚ) (w : ℕ) : ℕ :=
  (((List.range closes.length).map (signal closes fi w)).sum)

/-- `win_days = res[(res['Signal'].shift(1) == 1) & (res['Strategy_Return'] > 0)].shape[0]`;
both elementwise comparisons are `False` on NaN. -/
def winDays (closes fi : List ℚ) (w : ℕ) : ℕ :=
  (((List.range closes.length).filter (fun t =>
    (signalShift closes fi w t == some 1) &&
    (match stratReturn closes fi w t with
     | some r => decide (0 < r)
     | none => false))).length)

/-- `win_rate = (win_days / trade_days) * 100 if trade_days > 0 else 0`. -/
def winRate (closes fi : List ℚ) (w : ℕ) : ℚ :=
  if 0 < tradeDays closes fi w then
    ((winDays closes fi w : ℚ) / (tradeDays closes fi w : ℚ)) * 100
  else 0

/-- `total_return = (res['Cum_Strategy'].iloc[-1] - 1) * 100`; NaN-valued when
the last cumulative entry is NaN. -/
def totalReturn (closes fi : List ℚ) (w : ℕ) : Cell :=
  (cumStrategy closes fi w (closes.length - 1)).map (fun v => (v - 1) * 100)

/-- `market_return = (res['Cum_Market'].iloc[-1] - 1) * 100`. -/
def marketReturn (closes : List ℚ) : Cell :=
  (cumMarket closes (closes.length - 1)).map (fun v => (v - 1) * 100)

/-- `total_return - market_return` (the excess-return delta shown beside the
strategy metric); NaN propagates through the subtraction. -/
def excessReturn (closes fi : List ℚ) (w : ℕ) : Cell :=
  match totalReturn closes fi w, marketReturn closes with
  | some a, some b => some (a - b)
  | _, _ => none

/-- A timestamp on a date axis: a calendar day plus optional time-zone
information (the two providers use different conventions). -/
structure Date where
  day : Int
  tz : Option Int
deriving DecidableEq

/-- `index.tz_localize(None)`: drop the time-zone information, keep the
calendar day. -/
def stripTZ (d : Date) : Date := ⟨d.day, none⟩

/-- One raw record from `taiwan_stock_institutional_investors`: a date
(parsed from a plain date string, hence time-zone naive — modelled as the
bare day), an investor-category name, and buy/sell volumes. -/
structure FlowRec where
  date : Int
  name : String
  buy : ℚ
  sell : ℚ

/-- The pivoted flow table's column labels: the distinct category names of
the raw records (`pivot_table(columns='name')`). -/
def chipNames (chip : List FlowRec) : List String := (chip.map (·.name)).dedup

/-- The pivoted flow table's index: the distinct dates of the raw records
(`pivot_table(index='date')`). -/
def chipDates (chip : List FlowRec) : List Int := (chip.map (·.date)).dedup

/-- `pivot_table(index='date', columns='name', values='net', aggfunc='sum').fillna(0)`
at cell (`d`, `nm`): the sum of `net = buy - sell` over the records carrying
this date and this name; a (date, name) pair with no record is filled to 0. -/
def pivotNet (chip : List FlowRec) (d : Int) (nm : String) : ℚ :=
  ((chip.filter (fun r => r.date == d && r.name == nm)).map (fun r => r.buy - r.sell)).sum

/-- The value the left join plus `fillna(0)` puts at price day `d` in flow
column `nm`: the pivot cell when `d` is one of the pivot's dates, else the
NaN the join produced, filled to 0.  (The join key on the price side is the
tz-stripped date, on the flow side the naive date, so two dates match
exactly when their day components match.) -/
def joinVal (chip : List FlowRec) (d : Int) (nm : String) : ℚ :=
  if d ∈ chipDates chip then pivotNet chip d nm else 0

/-- The merged table `get_data` returns: the (price) date axis, the close
column, and one net-flow column per category name, each aligned with the
date axis. -/
structure MergedTable where
  dates : List Date
  closes : List ℚ
  flows : List (String × List ℚ)
deriving DecidableEq

/-- The merge step of `get_data`, given the fetched price rows (date, close
pairs) and the raw flow records.  When flow records exist (`not
df_chip.empty`): pivot them, strip the time zone from the price axis
(`df_price.index.tz_localize(None)`), and left-join the pivot onto the price
table by date, filling the gaps with 0.  When there are none: keep the price
table as is and add a constant-0 `Foreign_Investor` column. -/
def mergeTables (price : List (Date × ℚ)) (chip : List FlowRec) : MergedTable :=
  if chip.isEmpty then
    { dates := price.map (·.1)
      closes := price.map (·.2)
      flows := [("Foreign_Investor", price.map (fun _ => 0))] }
  else
    { dates := price.map (fun p => stripTZ p.1)
      closes := price.map (·.2)
      flows := (chipNames chip).map (fun nm =>
        (nm, price.map (fun p => joinVal chip (p.1).day nm))) }

/-- `get_data`, with the two provider fetches modelled as results: the price
fetch happens first and an empty price series short-circuits to the no-data
signal (`Except.ok none`) before the flow fetch ever runs (hence the thunk);
an exception raised by either fetch propagates unmodified. -/
def getData (priceRes : Except String (List (Date × ℚ)))
    (chipRes : Unit → Except String (List FlowRec)) :
    Except String (Option MergedTable) :=
  match priceRes with
  | .error e => .error e
  | .ok price =>
    if price.isEmpty then .ok none
    else
      match chipRes () with
      | .error e => .error e
      | .ok chip => .ok (some (mergeTables price chip))

/-- The table `run_backtest` builds: the merged columns plus the derived
columns MA, Daily_Return, Signal, Strategy_Return, Cum_Market, Cum_Strategy
(one list per column, aligned with the date axis). -/
structure BacktestTable where
  dates : List Date
  closes : List ℚ
  fi : List ℚ
  maCol : List Cell
  retCol : List Cell
  sigCol : List ℕ
  stratCol : List Cell
  cumMktCol : List Cell
  cumStratCol : List Cell
deriving DecidableEq

/-- The column computations of `run_backtest` once the `Foreign_Investor`
column has been read. -/
def mkBacktest (m : MergedTable) (fi : List ℚ) (w : ℕ) : BacktestTable :=
  let n := m.closes.length
  { dates := m.dates
    closes := m.closes
    fi := fi
    maCol := (List.range n).map (movAvg m.closes w)
    retCol := (List.range n).map (dailyReturn m.closes)
    sigCol := (List.range n).map (signal m.closes fi w)
    stratCol := (List.range n).map (stratReturn m.closes fi w)
    cumMktCol := (List.range n).map (cumMarket m.closes)
    cumStratCol := (List.range n).map (cumStrategy m.closes fi w) }

/-- `data['Foreign_Investor']` as a column lookup: `none` when the merged
table has no column of that name (a `KeyError` in pandas). -/
def MergedTable.fiCol (m : MergedTable) : Option (List ℚ) :=
  m.flows.lookup "Foreign_Investor"

/-- `run_backtest(df, ma_window)`: copies the table and computes the derived
columns; it fails (`none`, pandas raising `KeyError`) when the merged table
lacks the `Foreign_Investor` column, rather than treating the flow as 0. -/
def runBacktest (m : MergedTable) (w : ℕ) : Option BacktestTable :=
  (m.fiCol).map (fun fi => mkBacktest m fi w)

/-- A pandas object held in the interpreter's object store. -/
inductive PdObj where
  | merged : MergedTable → PdObj
  | backtest : BacktestTable → PdObj
deriving DecidableEq

/-- `run_backtest` with the object store made explicit: `data = df.copy()`
allocates a fresh object at the end of the store, and every later column
assignment writes to that fresh object only — the argument object is only
ever read.  Returns the new store and the index of the result object (the
store and argument are untouched when the reference is not a merged
table). -/
def runBacktestProc (heap : List PdObj) (r w : ℕ) : List PdObj × ℕ :=
  match heap.get? r with
  | some (PdObj.merged df) =>
    (heap ++ [match runBacktest df w with
              | some bt => PdObj.backtest bt
              | none => PdObj.merged df], heap.length)
  | _ => (heap, r)

/-- Modelled from the spec wording (for comparison with the code's
`winRate`): the number of rows whose previous-day signal was 1 — the
denominator the spec's win-rate sentence describes. -/
def prevHeldDays (closes fi : List ℚ) (w : ℕ) : ℕ :=
  (((List.range closes.length).filter (fun t => signalShift closes fi w t == some 1)).length)

/-- Modelled from the spec wording (for comparison with the code's
`winRate`): among rows whose previous-day signal was 1, the fraction with a
positive same-day strategy return, expressed as a percentage. -/
def specWinRate (closes fi : List ℚ) (w : ℕ) : ℚ :=
  if 0 < prevHeldDays closes fi w then
    ((winDays closes fi w : ℚ) / (prevHeldDays closes fi w : ℚ)) * 100
  else 0

/-- Scenario A's close column: 5 consecutive trading days. -/
def scenarioCloses : List ℚ := [100, 102, 101, 105, 104]

/-- Scenario A's merged net-flow column: the flow series was empty, so the
merged column is all zeros. -/
def scenarioFlows : List ℚ := [0, 0, 0, 0, 0]

/-- Close column separating the two win-rate conventions: rising prices, so
the MA(2) trend condition holds from row 1 on. -/
def wrCloses : List ℚ := [1, 2, 4, 8]

/-- Net-flow column separating the two win-rate conventions: always
positive. -/
def wrFlows : List ℚ := [1, 1, 1, 1]

/-- A one-row price table used to instantiate the merge theorems. -/
def priceOne : List (Date × ℚ) := [(⟨0, none⟩, 100)]

/-- A one-object store holding the merged table of `priceOne`, used to
instantiate the no-mutation theorem. -/
def heapOne : List PdObj := [PdObj.merged (mergeTables priceOne [])]

/-! ## Helper lemmas -/

/-- Indexing a list inside its bounds: `getElem?` agrees with `getD`. -/
theorem getElem?_eq_some_getD {l : List ℚ} {t : ℕ} (h : t < l.length) :
    l[t]? = some (l.getD t 0) := by
  rw [List.getElem?_eq_getElem h, List.getD_eq_getElem?_getD, List.getElem?_eq_getElem h]
  rfl

/-- `pct_change` at a row `t + 1` that exists: the defined value. -/
theorem dailyReturn_succ_of_lt {closes : List ℚ} {t : ℕ} (h : t + 1 < closes.length) :
    dailyReturn closes (t + 1) = some (closes.getD (t + 1) 0 / closes.getD t 0 - 1) := by
  have h' : t < closes.length := Nat.lt_of_succ_lt h
  have hd : dailyReturn closes (t + 1) =
      match closes[t + 1]?, closes[t]? with
      | some c, some p => some (c / p - 1)
      | _, _ => none := rfl
  rw [hd, getElem?_eq_some_getD h, getElem?_eq_some_getD h']

/-- The strategy return at a row `t + 1` that exists: the previous day's
signal times the day's return. -/
theorem stratReturn_succ_of_lt {closes : List ℚ} (fi : List ℚ) (w : ℕ) {t : ℕ}
    (h : t + 1 < closes.length) :
    stratReturn closes fi w (t + 1) =
      some ((signal closes fi w t : ℚ) * (closes.getD (t + 1) 0 / closes.getD t 0 - 1)) := by
  simp [stratReturn, signalShift, dailyReturn_succ_of_lt h]

/-- A `prodD` whose entry 0 is NaN and whose entries `1..t+1` are defined is
the plain product of the defined entries. -/
theorem prodD_defined (f : ℕ → Cell) (g : ℕ → ℚ) (h0 : f 0 = none) :
    ∀ t : ℕ, (∀ i, i < t + 1 → f (i + 1) = some (g i)) →
      prodD f (t + 1) = ∏ i in Finset.range (t + 1), g i := by
  intro t
  induction t with
  | zero =>
    intro hs
    have h1 := hs 0 (by omega)
    simp [prodD, h0, h1]
  | succ t ih =>
    intro hs
    have hstep := hs (t + 1) (by omega)
    have hrest : ∀ i, i < t + 1 → f (i + 1) = some (g i) := fun i hi => hs i (by omega)
    calc prodD f (t + 2) = prodD f (t + 1) * (f (t + 2)).getD 1 := rfl
      _ = (∏ i in Finset.range (t + 1), g i) * g (t + 1) := by rw [ih hrest, hstep]; rfl
      _ = ∏ i in Finset.range (t + 2), g i := (Finset.prod_range_succ g (t + 1)).symm

/-- `cumprod` (skipna) of a column whose entry 0 is NaN and whose entries
`1..t+1` are defined: the running product of the defined entries. -/
theorem cumprodSkip_defined (f : ℕ → Cell) (g : ℕ → ℚ) (h0 : f 0 = none) (t : ℕ)
    (hs : ∀ i, i < t + 1 → f (i + 1) = some (g i)) :
    cumprodSkip f (t + 1) = some (∏ i in Finset.range (t + 1), g i) := by
  have hlast := hs t (by omega)
  rw [cumprodSkip, hlast, prodD_defined f g h0 t hs]

/-- `Cum_Market` at a row `t + 1` that exists: the product of the gross
daily returns of rows `1..t+1`. -/
theorem cumMarket_succ {closes : List ℚ} {t : ℕ} (ht : t + 1 < closes.length) :
    cumMarket closes (t + 1) =
      some (∏ i in Finset.range (t + 1),
        (1 + (closes.getD (i + 1) 0 / closes.getD i 0 - 1))) := by
  refine cumprodSkip_defined _ _ rfl t (fun i hi => ?_)
  have hii : i + 1 < closes.length := by omega
  rw [dailyReturn_succ_of_lt hii]
  rfl

/-- `Cum_Strategy` at a row `t + 1` that exists: the product of the gross
strategy returns of rows `1..t+1`. -/
theorem cumStrategy_succ {closes : List ℚ} (fi : List ℚ) (w : ℕ) {t : ℕ}
    (ht : t + 1 < closes.length) :
    cumStrategy closes fi w (t + 1) =
      some (∏ i in Finset.range (t + 1),
        (1 + (signal closes fi w i : ℚ) * (closes.getD (i + 1) 0 / closes.getD i 0 - 1))) := by
  refine cumprodSkip_defined _ _ rfl t (fun i hi => ?_)
  have hii : i + 1 < closes.length := by omega
  rw [stratReturn_succ_of_lt fi w hii]
  rfl

/-- A lookup by key in an association list built over keys not containing
the key finds nothing. -/
theorem lookup_map_pair_none {l : List String} (f : String → List ℚ) {k : String}
    (h : k ∉ l) : (l.map (fun nm => (nm, f nm))).lookup k = none := by
  induction l with
  | nil => rfl
  | cons a l ih =>
    have hka : (k == a) = false := by
      refine beq_eq_false_iff_ne.mpr ?_
      intro hk
      exact h (hk ▸ List.mem_cons_self a l)
    have hl : k ∉ l := fun hm => h (List.mem_cons_of_mem a hm)
    simp [List.lookup, hka, ih hl]

/-- Counting by a boolean filter over `List.range` agrees with the
`Finset.range` filter card for a pointwise-equivalent predicate. -/
theorem range_filter_card (n : ℕ) (p : ℕ → Bool) (q : ℕ → Prop) [DecidablePred q]
    (hpq : ∀ t, p t = true ↔ q t) :
    ((List.range n).filter p).length = ((Finset.range n).filter q).card := by
  induction n with
  | zero => simp
  | succ n ih =>
    rw [List.range_succ, List.filter_append, List.length_append,
      Finset.range_succ, Finset.filter_insert]
    by_cases hq : q n
    · have hp : p n = true := (hpq n).mpr hq
      rw [if_pos hq, Finset.card_insert_of_not_mem (by simp)]
      simp [List.filter, hp, ih]
    · have hp : p n = false := by
        cases hpn : p n
        · rfl
        · exact absurd ((hpq n).mp hpn) hq
      rw [if_neg hq]
      simp [List.filter, hp, ih]

/-- The sum of the 0/1 signal column counts the rows whose signal is 1. -/
theorem sum_map_signal (closes fi : List ℚ) (w n : ℕ) :
    ((List.range n).map (signal closes fi w)).sum =
      ((List.range n).filter (fun t => signal closes fi w t == 1)).length := by
  induction n with
  | zero => rfl
  | succ n ih =>
    rw [List.range_succ, List.map_append, List.sum_append, List.filter_append,
      List.length_append, ih]
    by_cases h : condTech closes w n && condChip fi n
    · simp [List.filter, signal, h]
    · simp [List.filter, signal, h]

/-- The tech condition holds exactly when the row exists, its MA is defined
and the close is strictly above it. -/
theorem condTech_iff (closes : List ℚ) (w t : ℕ) :
    condTech closes w t = true ↔
      ∃ c m, closes[t]? = some c ∧ movAvg closes w t = some m ∧ m < c := by
  unfold condTech
  cases hc : closes[t]? with
  | none => simp
  | some c =>
    cases hm : movAvg closes w t with
    | none => simp
    | some m => simp

/-- The chip condition holds exactly when the row exists and its net flow is
strictly positive. -/
theorem condChip_iff (fi : List ℚ) (t : ℕ) :
    condChip fi t = true ↔ ∃ f, fi[t]? = some f ∧ 0 < f := by
  unfold condChip
  cases hf : fi[t]? with
  | none => simp
  | some f => simp

/-- The 0/1 signal is 1 exactly when both conditions hold. -/
theorem signal_eq_one_iff (closes fi : List ℚ) (w t : ℕ) :
    signal closes fi w t = 1 ↔ condTech closes w t = true ∧ condChip fi t = true := by
  unfold signal
  by_cases h : condTech closes w t && condChip fi t <;>
    simp_all [Bool.and_eq_true]

/-! ## Claims -/

/-- C1: for every merged table and every row `t ≥ 1` (written `t + 1`),
`Strategy_Return[t] = Signal[t-1] * Daily_Return[t]`; row 0's strategy
return is undefined (NaN); and `Strategy_Return[t]` depends only on
`Signal[t-1]` and `Daily_Return[t]`, so altering the same-day signal never
changes it (lookahead safety). -/
theorem strategy_return_lookahead_safe (closes fi : List ℚ) (w : ℕ) :
    stratReturn closes fi w 0 = none ∧
    (∀ t, stratReturn closes fi w (t + 1) =
      (dailyReturn closes (t + 1)).map (fun r => (signal closes fi w t : ℚ) * r)) ∧
    (∀ closes₂ fi₂ w₂ t,
      signal closes fi w t = signal closes₂ fi₂ w₂ t →
      dailyReturn closes (t + 1) = dailyReturn closes₂ (t + 1) →
      stratReturn closes fi w (t + 1) = stratReturn closes₂ fi₂ w₂ (t + 1)) := by
  refine ⟨rfl, fun t => ?_, fun closes₂ fi₂ w₂ t hs hr => ?_⟩
  · cases h : dailyReturn closes (t + 1) <;> simp [stratReturn, signalShift, h]
  · simp only [stratReturn, signalShift, hs, hr]

/-- C5: `get_data` yields the distinct no-data signal exactly when the price
fetch returns an empty series; an exception from either fetch propagates
unmodified and is never converted into the no-data signal. -/
theorem get_data_no_data_vs_failure :
    (∀ (e : String) cr, getData (Except.error e) cr = Except.error e) ∧
    (∀ (price : List (Date × ℚ)) (e : String), price ≠ [] →
      getData (Except.ok price) (fun _ => Except.error e) = Except.error e) ∧
    (∀ pr cr, getData pr cr = Except.ok none ↔ pr = Except.ok ([] : List (Date × ℚ))) := by
  refine ⟨fun e cr => rfl, fun price e hp => ?_, fun pr cr => ?_⟩
  · simp [getData, List.isEmpty_iff, hp]
  · cases pr with
    | error e => simp [getData]
    | ok price =>
      by_cases hp : price.isEmpty
      · simp [getData, hp, List.isEmpty_iff.mp hp]
      · have hne : price ≠ [] := by
          intro h
          rw [h] at hp
          exact hp rfl
        cases hcr : cr () with
        | error e => simp [getData, hp, hcr, hne]
        | ok chip => simp [getData, hp, hcr, hne]

/-- C6: `Signal[t] = 1` exactly when the same-day close is strictly above the
same-day MA and the same-day net flow is strictly positive; where the MA is
undefined (the first `window - 1` rows, or every row of a table shorter than
the window) the signal is 0, and a close exactly equal to the MA gives
signal 0. -/
theorem signal_same_day_strict (closes fi : List ℚ) (w t : ℕ) :
    (signal closes fi w t = 1 ↔
      ∃ c m f, closes[t]? = some c ∧ movAvg closes w t = some m ∧
        fi[t]? = some f ∧ m < c ∧ 0 < f) ∧
    (movAvg closes w t = none → signal closes fi w t = 0) ∧
    (t + 1 < w → movAvg closes w t = none) ∧
    (closes.length < w → movAvg closes w t = none) ∧
    (∀ c, closes[t]? = some c → movAvg closes w t = some c →
      signal closes fi w t = 0) := by
  refine ⟨?_, fun hma => ?_, fun hw => ?_, fun hlen => ?_, fun c hc hma => ?_⟩
  · rw [signal_eq_one_iff, condTech_iff, condChip_iff]
    constructor
    · rintro ⟨⟨c, m, hc, hma, hmc⟩, ⟨f, hf, hfp⟩⟩
      exact ⟨c, m, f, hc, hma, hf, hmc, hfp⟩
    · rintro ⟨c, m, f, hc, hma, hf, hmc, hfp⟩
      exact ⟨⟨c, m, hc, hma, hmc⟩, ⟨f, hf, hfp⟩⟩
  · simp [signal, condTech, hma]
  · simp only [movAvg, ite_eq_right_iff]
    intro hcon
    omega
  · simp only [movAvg, ite_eq_right_iff]
    intro hcon
    omega
  · have htech : condTech closes w t = false := by
      unfold condTech
      rw [hc, hma]
      simp
    simp [signal, htech]

/-- C7: merging an empty flow series onto a non-empty price series yields a
net-flow column that is all zeros with the same length as the price series,
present under the `Foreign_Investor` name. -/
theorem empty_flow_zero_fill (price : List (Date × ℚ)) (_hp : price ≠ []) :
    (mergeTables price []).fiCol = some (List.replicate price.length 0) ∧
    (mergeTables price []).flows =
      [("Foreign_Investor", List.replicate price.length (0 : ℚ))] ∧
    (mergeTables price []).dates.length = price.length := by
  refine ⟨?_, ?_, ?_⟩ <;>
    simp [mergeTables, MergedTable.fiCol, List.lookup, List.map_const']

/-- Witness for C7 at the one-row price table. -/
theorem empty_flow_zero_fill_witness :
    (mergeTables priceOne []).fiCol = some (List.replicate priceOne.length 0) ∧
    (mergeTables priceOne []).flows =
      [("Foreign_Investor", List.replicate priceOne.length (0 : ℚ))] ∧
    (mergeTables priceOne []).dates.length = priceOne.length :=
  empty_flow_zero_fill priceOne (by simp [priceOne])

/-- C9: `run_backtest` never mutates its argument: with the object store
explicit, every object that existed before the call — in particular the
table passed in — is unchanged after it. -/
theorem run_backtest_no_mutation (heap : List PdObj) (r w i : ℕ)
    (hi : i < heap.length) :
    (runBacktestProc heap r w).1[i]? = heap[i]? := by
  unfold runBacktestProc
  cases h : heap.get? r with
  | none => rfl
  | some o =>
    cases o with
    | merged df => simp [List.getElem?_append_left hi]
    | backtest bt => rfl

/-- Witness for C9 at a concrete one-object store. -/
theorem run_backtest_no_mutation_witness :
    (runBacktestProc heapOne 0 20).1[0]? = heapOne[0]? :=
  run_backtest_no_mutation heapOne 0 20 0 (by simp [heapOne])

/-- C10: when the flow source returns records whose category names do not
include `Foreign_Investor`, the merged table lacks that column and
`run_backtest` fails (`KeyError`) rather than treating the net flow as 0;
when the flow source returns zero rows, `get_data` guarantees the column and
`run_backtest` succeeds. -/
theorem missing_flow_column_fails (price : List (Date × ℚ)) (chip : List FlowRec) (w : ℕ) :
    (chip ≠ [] → "Foreign_Investor" ∉ chip.map FlowRec.name →
      (mergeTables price chip).fiCol = none ∧
      runBacktest (mergeTables price chip) w = none) ∧
    (mergeTables price []).fiCol = some (price.map (fun _ => 0)) ∧
    (∃ bt, runBacktest (mergeTables price []) w = some bt) := by
  refine ⟨fun hc hn => ?_, ?_, ?_⟩
  · have hints : "Foreign_Investor" ∉ chipNames chip := by
      intro hmem
      exact hn (List.mem_dedup.mp hmem)
    have hempty : chip.isEmpty = false := by
      cases chip with
      | nil => exact absurd rfl hc
      | cons a l => rfl
    have hcol : (mergeTables price chip).fiCol = none := by
      simp only [MergedTable.fiCol, mergeTables, hempty, Bool.false_eq_true, if_false]
      exact lookup_map_pair_none _ hints
    exact ⟨hcol, by simp [runBacktest, hcol]⟩
  · simp [mergeTables, MergedTable.fiCol, List.lookup]
  · have hcol : (mergeTables price []).fiCol = some (price.map (fun _ => 0)) := by
      simp [mergeTables, MergedTable.fiCol, List.lookup]
    refine ⟨mkBacktest (mergeTables price []) (price.map (fun _ => 0)) w, ?_⟩
    unfold runBacktest
    rw [hcol]
    rfl

/-- C2 (counterexample): in Scenario A (5-day price series, empty flow
series) `Cum_Strategy` and `Cum_Market` are NaN at row 0 — `cumprod`
propagates the undefined row-0 entry — so `Cum_Strategy` is not
`[1,1,1,1,1]` and neither cumulative series equals 1 at row 0. -/
theorem cum_series_row0_cex :
    cumStrategy scenarioCloses scenarioFlows 20 0 = none ∧
    cumMarket scenarioCloses 0 = none ∧
    (List.range 5).map (cumStrategy scenarioCloses scenarioFlows 20) ≠
      List.replicate 5 (some (1 : ℚ)) := by
  refine ⟨rfl, rfl, fun h => ?_⟩
  have h5 : List.range 5 = [0, 1, 2, 3, 4] := rfl
  rw [h5] at h
  simp only [List.map_cons, List.map_nil] at h
  rw [show cumStrategy scenarioCloses scenarioFlows 20 0 = none from rfl] at h
  simp at h

/-- C2 (amended): both cumulative series are NaN at row 0 (their row-0
entries are undefined and `cumprod` keeps NaN positions NaN); from row 1 on,
`Cum_Market[t]` is the product of the gross daily returns of rows `1..t` and
`Cum_Strategy[t]` the product of the gross strategy returns of rows `1..t`,
i.e. the claimed running products with undefined entries contributing
multiplier 1. -/
theorem cum_series_amended (closes fi : List ℚ) (w t : ℕ) (ht : t + 1 < closes.length) :
    cumMarket closes 0 = none ∧
    cumStrategy closes fi w 0 = none ∧
    cumMarket closes (t + 1) =
      some (∏ i in Finset.range (t + 1),
        (1 + (closes.getD (i + 1) 0 / closes.getD i 0 - 1))) ∧
    cumStrategy closes fi w (t + 1) =
      some (∏ i in Finset.range (t + 1),
        (1 + (signal closes fi w i : ℚ) * (closes.getD (i + 1) 0 / closes.getD i 0 - 1))) :=
  ⟨rfl, rfl, cumMarket_succ ht, cumStrategy_succ fi w ht⟩

/-- Witness for C2's amended theorem at Scenario A, row 1. -/
theorem cum_series_amended_witness :
    cumMarket scenarioCloses 0 = none ∧
    cumStrategy scenarioCloses scenarioFlows 20 0 = none ∧
    cumMarket scenarioCloses 1 =
      some (∏ i in Finset.range 1,
        (1 + (scenarioCloses.getD (i + 1) 0 / scenarioCloses.getD i 0 - 1))) ∧
    cumStrategy scenarioCloses scenarioFlows 20 1 =
      some (∏ i in Finset.range 1,
        (1 + (signal scenarioCloses scenarioFlows 20 i : ℚ) *
          (scenarioCloses.getD (i + 1) 0 / scenarioCloses.getD i 0 - 1))) :=
  cum_series_amended scenarioCloses scenarioFlows 20 0 (by norm_num [scenarioCloses])

/-- C3: the merged date axis is exactly the price date axis (same days, same
order, same length — flow dates not on the price axis are discarded, no
price date is dropped); every merged row carries a numeric net-flow value in
every flow column; and when a join happens (non-empty flow data) the price
axis is compared with its time-zone information stripped, so the merge
depends only on the day components of the price dates. -/
theorem merged_axis_alignment (price : List (Date × ℚ)) (chip : List FlowRec) :
    (mergeTables price chip).dates.map Date.day = price.map (fun p => (p.1).day) ∧
    (mergeTables price chip).closes = price.map (fun p => p.2) ∧
    (mergeTables price chip).dates.length = price.length ∧
    (mergeTables price chip).flows ≠ [] ∧
    (∀ col ∈ (mergeTables price chip).flows,
      (col.2).length = (mergeTables price chip).dates.length) ∧
    (chip ≠ [] →
      (mergeTables price chip).dates = price.map (fun p => stripTZ p.1) ∧
      ∀ price₂ : List (Date × ℚ),
        price₂.map (fun p => ((p.1).day, p.2)) = price.map (fun p => ((p.1).day, p.2)) →
        mergeTables price₂ chip = mergeTables price chip) := by
  cases chip with
  | nil =>
    refine ⟨?_, ?_, ?_, ?_, ?_, fun hc => absurd rfl hc⟩
    · simp [mergeTables, List.map_map]
    · simp [mergeTables]
    · simp [mergeTables]
    · simp [mergeTables]
    · intro col hcol
      simp only [mergeTables, List.isEmpty_nil, if_true] at hcol ⊢
      simp only [List.mem_singleton] at hcol
      subst hcol
      simp
  | cons r rest =>
    have hne : (r :: rest).isEmpty = false := rfl
    have hmm : ∀ (pr : List (Date × ℚ)),
        (mergeTables pr (r :: rest)) =
          { dates := pr.map (fun p => stripTZ p.1)
            closes := pr.map (·.2)
            flows := (chipNames (r :: rest)).map (fun nm =>
              (nm, pr.map (fun p => joinVal (r :: rest) (p.1).day nm))) } := by
      intro pr
      simp [mergeTables, hne]
    refine ⟨?_, ?_, ?_, ?_, ?_, fun _ => ⟨by rw [hmm], fun price₂ h => ?_⟩⟩
    · rw [hmm]
      simp [List.map_map, stripTZ, Function.comp]
    · rw [hmm]
    · rw [hmm]
      simp
    · rw [hmm]
      simp [chipNames]
    · intro col hcol
      rw [hmm] at hcol ⊢
      simp only [List.mem_map] at hcol
      obtain ⟨nm, _, hcoleq⟩ := hcol
      subst hcoleq
      simp
    · have hd : price₂.map (fun p => (p.1).day) = price.map (fun p => (p.1).day) := by
        have hfst := congrArg (List.map Prod.fst) h
        simpa [List.map_map, Function.comp] using hfst
      have hc2 : price₂.map (fun p => p.2) = price.map (fun p => p.2) := by
        have hsnd := congrArg (List.map Prod.snd) h
        simpa [List.map_map, Function.comp] using hsnd
      have hdates : price₂.map (fun p => stripTZ p.1) = price.map (fun p => stripTZ p.1) := by
        calc price₂.map (fun p => stripTZ p.1)
            = (price₂.map (fun p => (p.1).day)).map (fun d => (⟨d, none⟩ : Date)) := by
              simp [List.map_map, stripTZ, Function.comp]
          _ = (price.map (fun p => (p.1).day)).map (fun d => (⟨d, none⟩ : Date)) := by
              rw [hd]
          _ = price.map (fun p => stripTZ p.1) := by
              simp [List.map_map, stripTZ, Function.comp]
      have hcols : (fun nm => (nm, price₂.map (fun p => joinVal (r :: rest) (p.1).day nm)))
          = (fun nm => (nm, price.map (fun p => joinVal (r :: rest) (p.1).day nm))) := by
        funext nm
        have hstep : price₂.map (fun p => joinVal (r :: rest) (p.1).day nm)
            = price.map (fun p => joinVal (r :: rest) (p.1).day nm) := by
          calc price₂.map (fun p => joinVal (r :: rest) (p.1).day nm)
              = (price₂.map (fun p => (p.1).day)).map (fun d => joinVal (r :: rest) d nm) := by
                simp [List.map_map, Function.comp]
            _ = (price.map (fun p => (p.1).day)).map (fun d => joinVal (r :: rest) d nm) := by
                rw [hd]
            _ = price.map (fun p => joinVal (r :: rest) (p.1).day nm) := by
                simp [List.map_map, Function.comp]
        rw [hstep]
      rw [hmm, hmm, hdates, hc2, hcols]

/-- C4 (counterexample): on a concrete 4-row table whose last row is
signalled, the code's win rate divides the 2 winning rows by the 3
same-day-signal trade-days (giving 200/3 %), while the claim's "fraction of
the rows whose previous-day signal was 1" is 2 out of 2 (100 %). -/
theorem win_rate_denominator_cex :
    winRate wrCloses wrFlows 2 = 200 / 3 ∧
    tradeDays wrCloses wrFlows 2 = 3 ∧
    winDays wrCloses wrFlows 2 = 2 ∧
    prevHeldDays wrCloses wrFlows 2 = 2 ∧
    specWinRate wrCloses wrFlows 2 = 100 ∧
    winRate wrCloses wrFlows 2 ≠ specWinRate wrCloses wrFlows 2 := by
  have h01 : ((0 : Nat) == 1) = false := rfl
  norm_num [winRate, specWinRate, tradeDays, winDays, prevHeldDays, signal, signalShift,
    stratReturn, dailyReturn, condTech, condChip, movAvg, wrCloses, wrFlows,
    List.range_succ, List.filter, h01]

/-- C4 (amended): trade-days counts the rows whose same-day signal is 1; the
win-rate numerator counts the rows whose previous-day signal was 1 and whose
same-day strategy return is positive; the win rate divides that numerator by
trade-days (not by the count of previous-day-signal rows), × 100, and is
exactly 0 when trade-days is 0 (no division by zero). -/
theorem trade_days_and_win_rate (closes fi : List ℚ) (w : ℕ) :
    tradeDays closes fi w =
      ((Finset.range closes.length).filter (fun t => signal closes fi w t = 1)).card ∧
    winDays closes fi w =
      ((Finset.range closes.length).filter (fun t =>
        signalShift closes fi w t = some 1 ∧ 0 < (stratReturn closes fi w t).getD 0)).card ∧
    (tradeDays closes fi w = 0 → winRate closes fi w = 0) ∧
    (0 < tradeDays closes fi w →
      winRate closes fi w =
        (winDays closes fi w : ℚ) / (tradeDays closes fi w : ℚ) * 100) := by
  refine ⟨?_, ?_, fun h0 => by simp [winRate, h0], fun hpos => by simp [winRate, hpos]⟩
  · rw [tradeDays, sum_map_signal]
    exact range_filter_card _ _ _ (fun t => by simp)
  · rw [winDays]
    refine range_filter_card _ _ _ (fun t => ?_)
    cases hs : stratReturn closes fi w t with
    | none => simp [hs]
    | some r => simp [hs]

/-- C8 (counterexample): a one-row merged table (a legitimate non-empty
result) makes the last `Cum_Strategy` and `Cum_Market` entries NaN, so the
displayed total strategy return %, benchmark return % and excess return %
are all NaN. -/
theorem metrics_one_row_nan_cex :
    totalReturn [(100 : ℚ)] [(0 : ℚ)] 20 = none ∧
    marketReturn [(100 : ℚ)] = none ∧
    excessReturn [(100 : ℚ)] [(0 : ℚ)] 20 = none :=
  ⟨rfl, rfl, rfl⟩

/-- C8 (amended): for every merged table with at least two rows the three
displayed percentages are defined (non-NaN), and the win rate is exactly 0
when there are no trade-days; only a one-row table leaves the percentage
metrics NaN. -/
theorem metrics_defined_amended (closes fi : List ℚ) (w : ℕ) (h2 : 2 ≤ closes.length) :
    (∃ x, totalReturn closes fi w = some x) ∧
    (∃ x, marketReturn closes = some x) ∧
    (∃ x, excessReturn closes fi w = some x) ∧
    (tradeDays closes fi w = 0 → winRate closes fi w = 0) := by
  obtain ⟨t, htt⟩ : ∃ t, closes.length - 1 = t + 1 := ⟨closes.length - 2, by omega⟩
  have ht : t + 1 < closes.length := by omega
  have hcs := cumStrategy_succ fi w ht
  have hcm := cumMarket_succ ht
  refine ⟨?_, ?_, ?_, fun h0 => by simp [winRate, h0]⟩
  · unfold totalReturn
    rw [htt, hcs]
    exact ⟨_, rfl⟩
  · unfold marketReturn
    rw [htt, hcm]
    exact ⟨_, rfl⟩
  · unfold excessReturn totalReturn marketReturn
    rw [htt, hcs, hcm]
    exact ⟨_, rfl⟩

/-- Witness for C8's amended theorem at Scenario A's five-row table. -/
theorem metrics_defined_amended_witness :
    (∃ x, totalReturn scenarioCloses scenarioFlows 20 = some x) ∧
    (∃ x, marketReturn scenarioCloses = some x) ∧
    (∃ x, excessReturn scenarioCloses scenarioFlows 20 = some x) ∧
    (tradeDays scenarioCloses scenarioFlows 20 = 0 →
      winRate scenarioCloses scenarioFlows 20 = 0) :=
  metrics_defined_amended scenarioCloses scenarioFlows 20 (by norm_num [scenarioCloses])

end StockApp
